import Mathlib

/-!
Verification of the csvadc decode pipeline (csvadc.py): tri-state
thresholding, bus-column inference and bit packing, clock-aligned
resampling, and the output/verification stage.  Analog samples and times
are modelled as rationals; Python runtime failures (NameError, KeyError,
IndexError, TypeError, ValueError) are modelled with an `Except` error
type.
-/

namespace Csvadc

/-- Runtime errors the Python code can raise while processing a row. -/
inductive Err where
  | nameError
  | keyError
  | indexError
  | typeError
  | valueError
deriving DecidableEq

/-- Clock constants from csvadc.py: INITIAL_DELAY = 9e-9. -/
def INITIAL_DELAY : ℚ := 9 / 1000000000

/-- Clock constants from csvadc.py: CLOCK_PERIOD = 10e-9. -/
def CLOCK_PERIOD : ℚ := 10 / 1000000000

/-- Output formats accepted by the --format option. -/
inductive Fmt where
  | dec
  | hex
  | bin
deriving DecidableEq

/-- Bit orders accepted by the --order option. -/
inductive Bitorder where
  | lsb
  | msb
deriving DecidableEq

/-- Tri-state mapper (`map_value` in csvadc.py):
`if x >= high: return True; if x < low: return False; return None`.
`some true` is logic One, `some false` is logic Zero, `none` is Unknown. -/
def map_value (x low high : ℚ) : Option Bool :=
  if high ≤ x then some true
  else if x < low then some false
  else none

/-- Character of a single digit, uppercase for values 10..15 (as Python's
`X` format spec produces). -/
def digitChar (d : ℕ) : Char :=
  if d < 10 then Char.ofNat (48 + d) else Char.ofNat (55 + d)

/-- Digits of `n` in base `b`, least significant first, with explicit fuel
(`fuel ≥ n` suffices for the recursion to complete). -/
def digitsRevAux (b : ℕ) : ℕ → ℕ → List ℕ
  | 0, n => [n]
  | fuel + 1, n => if n < b then [n] else (n % b) :: digitsRevAux b fuel (n / b)

/-- Digits of `n` in base `b`, least significant first. -/
def digitsRev (b n : ℕ) : List ℕ := digitsRevAux b n n

/-- Positional rendering of `n` in base `b`, most significant digit first. -/
def renderBase (b n : ℕ) : String :=
  String.mk ((digitsRev b n).reverse.map digitChar)

/-- Decimal rendering of a natural number, as Python's `str`/`{}`.format
produces for a non-negative int. -/
def natRepr (n : ℕ) : String := renderBase 10 n

/-- Left-pad a rendered number with zeros to `w` characters, as Python's
`0{w}` format padding does (no truncation when already longer). -/
def padZeros (s : String) (w : ℕ) : String :=
  String.mk (List.replicate (w - s.length) '0') ++ s

/-- `format_val` from csvadc.py.  A decoded value is `some v`; `none` is
Python's `None` (Unknown).  In `dec` mode `'\x7b\x7d'.format(None)` yields
the text `None`; in `hex`/`bin` mode the `X`/`b` format specs raise
`TypeError` when applied to `None`. -/
def format_val (val : Option ℕ) (fmt : Fmt) (width : ℕ) : Except Err String :=
  match fmt with
  | .dec =>
    match val with
    | some v => .ok (natRepr v)
    | none => .ok "None"
  | .hex =>
    match val with
    | some v => .ok ("0x" ++ padZeros (renderBase 16 v) ((width - 1) / 4 + 1))
    | none => .error .typeError
  | .bin =>
    match val with
    | some v => .ok ("0b" ++ padZeros (renderBase 2 v) width)
    | none => .error .typeError

/-- A bus's bit assignment: ordered `(column_index, bit_position)` pairs
(the insertion-ordered items of the Python per-bus dict). -/
abbrev BitMap := List (ℕ × ℕ)

/-- The bus map: insertion-ordered `(bus_name, bitmap)` pairs (the Python
`BusHandler.busses` dict). -/
abbrev Busses := List (String × BitMap)

/-- Word character test for the regex class `\w` on ASCII input. -/
def isWordChar (c : Char) : Bool := c.isAlphanum || c == '_'

/-- Backtracking core of matching the remainder of the bus-node pattern
`v\((\w+?)(\d+)\)` after the literal `v(`.  `acc` holds the (reversed)
characters committed to the non-greedy name group; at each digit the
matcher first tries to end the name here, taking the maximal digit run
followed by a literal `)`; on failure the digit is absorbed into the name
and scanning continues. -/
def busnodeFind (acc : List Char) : List Char → Option (List Char × List Char)
  | [] => none
  | c :: rest =>
    if c.isDigit then
      match acc, (c :: rest).dropWhile Char.isDigit with
      | _ :: _, ')' :: _ => some (acc.reverse, (c :: rest).takeWhile Char.isDigit)
      | _, _ => busnodeFind (c :: acc) rest
    else if isWordChar c then busnodeFind (c :: acc) rest
    else none

/-- Value of a digit string, as Python's `int` parses `m.group(2)`. -/
def digitsToNat (ds : List Char) : ℕ :=
  ds.foldl (fun a c => a * 10 + (c.toNat - 48)) 0

/-- `BusHandler.busnode_pat.match`: anchored match of `v\((\w+?)(\d+)\)`
against a column name, returning the bus name and bit index on success. -/
def busnode_match (s : String) : Option (String × ℕ) :=
  match s.toList with
  | 'v' :: '(' :: rest =>
    match busnodeFind [] rest with
    | some (name, ds) => some (String.mk name, digitsToNat ds)
    | none => none
  | _ => none

/-- `bh.busses[bus_name][colnum] = bus_bit` on the insertion-ordered
association list: a fresh bus name is appended at the end, a fresh column
is appended at the end of its bus's bitmap. -/
def inferAdd (bs : Busses) (name : String) (col bit : ℕ) : Busses :=
  match bs with
  | [] => [(name, [(col, bit)])]
  | (n, bm) :: rest =>
    if n = name then (n, bm ++ [(col, bit)]) :: rest
    else (n, bm) :: inferAdd rest name col bit

/-- `BusHandler.infer`: walk the header with column numbers, match each
name against the bus-node pattern, and record matches in the bus map. -/
def infer (header : List String) : Busses :=
  header.enum.foldl
    (fun bs cn =>
      match busnode_match cn.2 with
      | some nb => inferAdd bs nb.1 cn.1 nb.2
      | none => bs)
    []

/-- `BusHandler.default_lsb_first`: one synthetic bus `(default)`,
column i carrying bit i. -/
def default_lsb_first (length : ℕ) : Busses :=
  [("(default)", (List.range length).map (fun i => (i, i)))]

/-- `BusHandler.default_msb_first`: one synthetic bus `(default)`,
column i carrying bit length-1-i. -/
def default_msb_first (length : ℕ) : Busses :=
  [("(default)", (List.range length).map (fun i => (i, length - 1 - i)))]

/-- The per-bus body of `BusHandler.extract_vals`: iterate the bitmap,
classify `row[colnum]` (an out-of-range column raises IndexError), abort
with `none` (Python `None`) on the first Unknown bit, otherwise OR
`digital << bit` into the accumulator. -/
def extract_bus (low high : ℚ) (row : List ℚ) : BitMap → ℕ → Except Err (Option ℕ)
  | [], acc => .ok (some acc)
  | (col, bit) :: rest, acc =>
    match row.get? col with
    | none => .error .indexError
    | some analog =>
      match map_value analog low high with
      | none => .ok none
      | some digital =>
        extract_bus low high row rest (acc ||| ((if digital then 1 else 0) <<< bit))

/-- `BusHandler.extract_vals`: decode every bus of the bus map against one
row, accumulator starting at 0. -/
def extract_vals (low high : ℚ) (busses : Busses) (row : List ℚ) :
    Except Err (List (String × Option ℕ)) :=
  match busses with
  | [] => .ok []
  | (name, bm) :: rest =>
    match extract_bus low high row bm 0 with
    | .error e => .error e
    | .ok v =>
      match extract_vals low high rest row with
      | .error e => .error e
      | .ok vs => .ok ((name, v) :: vs)

/-- Specification-side packing of a fully resolved bus: the bitwise OR,
over the bitmap's entries, of `1 <<< bit` for each bit classified One and
`0` for each bit classified Zero. -/
def busSpec (low high : ℚ) (row : List ℚ) (bm : BitMap) : ℕ :=
  bm.foldr
    (fun cb acc =>
      acc ||| (if map_value ((row.get? cb.1).getD 0) low high = some true then 1 <<< cb.2 else 0))
    0

/-- Maximum bit position of a bus's bitmap (`max(bitmap.values())` in
Python, which raises ValueError on an empty dict). -/
def maxBits (bm : BitMap) : Except Err ℕ :=
  match bm with
  | [] => .error .valueError
  | (_, b) :: rest => .ok (rest.foldl (fun a cb => max a cb.2) b)

/-- One step of the clock resampler (main loop lines `if t <
next_sample_time: continue` / `next_sample_time += CLOCK_PERIOD`): returns
the new `next_sample_time` and whether the row was admitted. -/
def resample_step (next t : ℚ) : ℚ × Bool :=
  if t < next then (next, false) else (next + CLOCK_PERIOD, true)

/-- Final `next_sample_time` after running the resampler over a stream of
row times. -/
def resample_states : List ℚ → ℚ → ℚ
  | [], s => s
  | t :: ts, s => resample_states ts (resample_step s t).1

/-- Number of rows the clock resampler admits from a stream of row times,
starting from a given `next_sample_time`. -/
def clockAdmitCount : List ℚ → ℚ → ℕ
  | [], _ => 0
  | t :: ts, next =>
    if t < next then clockAdmitCount ts next
    else clockAdmitCount ts (next + CLOCK_PERIOD) + 1

/-- Mutable per-run state of the main loop: `next_sample_time` and the
verification counter `num_correct`. -/
structure RunState where
  next_sample_time : ℚ
  num_correct : ℕ
deriving DecidableEq

/-- What happened to one input record: skipped as blank, dropped by the
clock, or admitted (with or without the verification annotation). -/
inductive RowOutcome where
  | skipped
  | dropped
  | admitted (annotated : Bool)
deriving DecidableEq

/-- The startup part of `main` that builds the bus map and, when a header
is present, the `name => column` mapping of non-bus columns.  Without a
header the Python variable `non_bus_cols` is never assigned, modelled as
`none`. -/
def setup (has_header : Bool) (header : List String) (num_cols : ℕ)
    (order : Option Bitorder) : Busses × Option (List (String × ℕ)) :=
  if has_header then
    let b := infer header
    let bus_cols := (b.map (fun nb => nb.2.map Prod.fst)).flatten
    let nbc := ((List.range num_cols).filter (fun i => ¬ i ∈ bus_cols)).map
      (fun i => (header.getD i "", i))
    (b, some nbc)
  else
    match order with
    | some .msb => (default_msb_first num_cols, none)
    | _ => (default_lsb_first num_cols, none)

/-- The `print` loop over non-bus columns (`val = record[col]`): each
column index is looked up in the compacted record, raising IndexError when
out of range. -/
def readNonBus (nbc : List (String × ℕ)) (rec : List ℚ) :
    Except Err (List (String × ℚ)) :=
  match nbc with
  | [] => .ok []
  | (name, col) :: rest =>
    match rec.get? col with
    | none => .error .indexError
    | some v =>
      match readNonBus rest rec with
      | .error e => .error e
      | .ok vs => .ok ((name, v) :: vs)

/-- The bus-printing loop of `main`: for each decoded bus value, compute
`bus_width = max(busses.busses[bus_name].values())+1` and format the
value. -/
def formatAll (busses : Busses) (fmt : Fmt) :
    List (String × Option ℕ) → Except Err (List String)
  | [] => .ok []
  | (name, val) :: rest =>
    match busses.lookup name with
    | none => .error .keyError
    | some bm =>
      match maxBits bm with
      | .error e => .error e
      | .ok mb =>
        match format_val val fmt (mb + 1) with
        | .error e => .error e
        | .ok s =>
          match formatAll busses fmt rest with
          | .error e => .error e
          | .ok ss => .ok ((name ++ "=" ++ s) :: ss)

/-- The verification step of `main` (`m = bus_vals['m']` ... `if (m * n ==
p)`): a missing bus name raises KeyError; multiplying a `None` (Unknown)
operand raises TypeError; comparing anything with `None` on the right is
plain inequality.  Returns the new counter and whether the line was
annotated. -/
def verify_step (bus_vals : List (String × Option ℕ)) (num_correct : ℕ) :
    Except Err (ℕ × Bool) :=
  match bus_vals.lookup "m", bus_vals.lookup "n", bus_vals.lookup "p" with
  | some mv, some nv, some pv =>
    match mv, nv with
    | some a, some b =>
      if pv = some (a * b) then .ok (num_correct + 1, true)
      else .ok (num_correct, false)
    | _, _ => .error .typeError
  | _, _, _ => .error .keyError

/-- One iteration of the row loop of `main`: compact the record's
populated fields, skip if empty, look up the time (NameError when
`non_bus_cols` was never assigned, KeyError when it lacks `time`), apply
the clock gate, then emit non-bus values, decode and format the busses,
and run the verification step. -/
def processRecord (low high : ℚ) (fmt : Fmt) (busses : Busses)
    (nbcOpt : Option (List (String × ℕ))) (st : RunState)
    (record : List (Option ℚ)) : Except Err (RunState × RowOutcome) :=
  let rcd := record.filterMap id
  if rcd.isEmpty then .ok (st, .skipped)
  else
    match nbcOpt with
    | none => .error .nameError
    | some nbc =>
      match nbc.lookup "time" with
      | none => .error .keyError
      | some tcol =>
        match rcd.get? tcol with
        | none => .error .indexError
        | some t =>
          if t < st.next_sample_time then .ok (st, .dropped)
          else
            match readNonBus nbc rcd with
            | .error e => .error e
            | .ok _ =>
              match extract_vals low high busses rcd with
              | .error e => .error e
              | .ok bus_vals =>
                match formatAll busses fmt bus_vals with
                | .error e => .error e
                | .ok _ =>
                  match verify_step bus_vals st.num_correct with
                  | .error e => .error e
                  | .ok ncann =>
                    .ok ({ next_sample_time := st.next_sample_time + CLOCK_PERIOD,
                           num_correct := ncann.1 },
                         .admitted ncann.2)

/-! ## Helper lemmas -/

theorem CLOCK_PERIOD_pos : (0 : ℚ) < CLOCK_PERIOD := by norm_num [CLOCK_PERIOD]

theorem INITIAL_DELAY_nonneg : (0 : ℚ) ≤ INITIAL_DELAY := by norm_num [INITIAL_DELAY]

theorem resample_step_mono (s t : ℚ) : s ≤ (resample_step s t).1 := by
  unfold resample_step
  split
  · exact le_refl s
  · exact le_of_lt (lt_add_of_pos_right s CLOCK_PERIOD_pos)

theorem resample_states_mono (ts : List ℚ) : ∀ s : ℚ, s ≤ resample_states ts s := by
  induction ts with
  | nil => intro s; exact le_refl s
  | cons t ts ih =>
    intro s
    exact le_trans (resample_step_mono s t) (ih _)

theorem digitsRevAux_lt (b : ℕ) (hb : 2 ≤ b) :
    ∀ fuel n, n ≤ fuel → ∀ d ∈ digitsRevAux b fuel n, d < b := by
  intro fuel
  induction fuel with
  | zero =>
    intro n hn d hd
    simp only [digitsRevAux, List.mem_singleton] at hd
    omega
  | succ f ih =>
    intro n hn d hd
    unfold digitsRevAux at hd
    split at hd
    · simp only [List.mem_singleton] at hd
      omega
    · rename_i hnb
      simp only [List.mem_cons] at hd
      rcases hd with hd | hd
      · subst hd
        exact Nat.mod_lt n (by omega)
      · have hlt : n / b < n := Nat.div_lt_self (by omega) (by omega)
        exact ih (n / b) (by omega) d hd

theorem digitChar_digit_ne_N : ∀ d < 10, digitChar d ≠ 'N' := by decide

theorem natRepr_ne_None (n : ℕ) : natRepr n ≠ "None" := by
  unfold natRepr renderBase
  intro h
  have hl : (digitsRev 10 n).reverse.map digitChar = "None".data := congrArg String.data h
  have hmem : 'N' ∈ (digitsRev 10 n).reverse.map digitChar := by
    rw [hl]
    decide
  obtain ⟨d, hd, hdN⟩ := List.mem_map.mp hmem
  have hd10 : d < 10 := by
    refine digitsRevAux_lt 10 (by norm_num) n n (le_refl n) d ?_
    simpa [digitsRev] using List.mem_reverse.mp hd
  exact digitChar_digit_ne_N d hd10 hdN

/-! ## Claim theorems -/

/-- C3: for every sample and every threshold pair with `low < high`,
classification is exhaustive and exclusive: `Zero` (`some false`) exactly
when `sample < low`, `One` (`some true`) exactly when `sample >= high`,
`Unknown` (`none`) exactly when `low <= sample < high`. -/
theorem c3_classify_trichotomy (low high x : ℚ) (h : low < high) :
    (map_value x low high = some true ↔ high ≤ x) ∧
    (map_value x low high = some false ↔ x < low) ∧
    (map_value x low high = none ↔ low ≤ x ∧ x < high) := by
  unfold map_value
  split_ifs with h1 h2
  · refine ⟨by simp [h1], ?_, by simp; intro _; linarith⟩
    simp only [Option.some.injEq]
    constructor
    · intro hb; exact absurd hb (by simp)
    · intro hx; linarith
  · refine ⟨?_, by simp [h2], by simp; intro hx; linarith⟩
    simp only [Option.some.injEq]
    constructor
    · intro hb; exact absurd hb (by simp)
    · intro hx; linarith
  · push_neg at h1 h2
    refine ⟨by simp; linarith, by simp; linarith, by simp [h2, h1]⟩

/-- C3 witness: with thresholds `(0.2, 1.5)` the sample `0.1` classifies
as `Zero`. -/
theorem c3_classify_trichotomy_witness :
    map_value 0.1 0.2 1.5 = some false :=
  ((c3_classify_trichotomy 0.2 1.5 0.1 (by norm_num)).2.1).mpr (by norm_num)

/-- C5: the clock resampler drops a row exactly when its time is strictly
below `next_sample_time`; on an admitted row the state advances by exactly
one `CLOCK_PERIOD` (a fixed increment independent of the row's time); on a
dropped row it does not change; and over any row stream the state never
decreases. -/
theorem c5_resampler_invariant (s t : ℚ) :
    ((resample_step s t).2 = false ↔ t < s) ∧
    (t < s → resample_step s t = (s, false)) ∧
    (¬ t < s → resample_step s t = (s + CLOCK_PERIOD, true)) ∧
    s ≤ (resample_step s t).1 ∧
    (∀ ts : List ℚ, s ≤ resample_states ts s) := by
  refine ⟨?_, ?_, ?_, resample_step_mono s t, fun ts => resample_states_mono ts s⟩
  · unfold resample_step
    split
    · rename_i hlt; simpa using hlt
    · rename_i hge; simpa using hge
  · intro hlt; simp [resample_step, hlt]
  · intro hge; simp [resample_step, hge]

/-- C5 witness: from `next_sample_time = INITIAL_DELAY` a row at time 0 is
dropped with the state unchanged. -/
theorem c5_resampler_invariant_witness :
    resample_step INITIAL_DELAY 0 = (INITIAL_DELAY, false) :=
  (c5_resampler_invariant INITIAL_DELAY 0).2.1 (by norm_num [INITIAL_DELAY])

/-- C1 counterexample: on a row decoding to `m = Unknown`, `n = 3`,
`p = 5` the verification step raises a TypeError (Python evaluates
`None * 3`), so the run aborts instead of continuing to the next row with
no annotation, refuting the claim's Unknown-operand case. -/
theorem c1_counterexample :
    verify_step [("m", none), ("n", some 3), ("p", some 5)] 0 = .error .typeError := rfl

/-- C1 (amended): when busses `m`, `n`, `p` all exist and `m` and `n` are
non-Unknown, the verification step increments the counter and annotates
exactly when `p` equals `m * n` (in particular an Unknown `p` never
matches and never increments); but when `m` or `n` is Unknown the step
raises a TypeError and the run aborts. -/
theorem c1_verification_amended (bus_vals : List (String × Option ℕ)) (nc : ℕ)
    (mv nv pv : Option ℕ)
    (hm : bus_vals.lookup "m" = some mv) (hn : bus_vals.lookup "n" = some nv)
    (hp : bus_vals.lookup "p" = some pv) :
    (∀ a b, mv = some a → nv = some b →
      verify_step bus_vals nc =
        (if pv = some (a * b) then .ok (nc + 1, true) else .ok (nc, false))) ∧
    ((mv = none ∨ nv = none) → verify_step bus_vals nc = .error .typeError) := by
  unfold verify_step
  rw [hm, hn, hp]
  constructor
  · rintro a b rfl rfl
    rfl
  · rintro (rfl | rfl)
    · rfl
    · cases mv <;> rfl

/-- C1 witness: with `m = 3`, `n = 4`, `p = 12` the counter increments and
the line is annotated. -/
theorem c1_verification_amended_witness :
    verify_step [("m", some 3), ("n", some 4), ("p", some 12)] 0 = .ok (1, true) := by
  have h := (c1_verification_amended [("m", some 3), ("n", some 4), ("p", some 12)] 0
    (some 3) (some 4) (some 12) rfl rfl rfl).1 3 4 rfl rfl
  simpa using h

/-- C8 counterexample: in hexadecimal mode an Unknown bus value is not
rendered as a marker at all — Python's `X` format spec raises a TypeError
on `None` — refuting the claim's "in every output format" part. -/
theorem c8_counterexample :
    format_val none .hex 4 = .error .typeError := rfl

/-- C8 (amended): in decimal mode an Unknown bus value renders as the
explicit marker `None`, which differs from the decimal rendering of every
resolved value (so it is never coerced to 0), while resolved values print
as plain integer text; in hexadecimal and binary modes formatting an
Unknown value raises a TypeError instead of rendering a marker. -/
theorem c8_unknown_rendering_amended (w v : ℕ) :
    format_val none .dec w = .ok "None" ∧
    format_val (some v) .dec w = .ok (natRepr v) ∧
    natRepr v ≠ "None" ∧
    format_val none .hex w = .error .typeError ∧
    format_val none .bin w = .error .typeError :=
  ⟨rfl, rfl, natRepr_ne_None v, rfl, rfl⟩

theorem extract_bus_all_known (low high : ℚ) (row : List ℚ) :
    ∀ (bm : BitMap) (acc : ℕ),
      (∀ cb ∈ bm, cb.1 < row.length) →
      (∀ cb ∈ bm, map_value ((row.get? cb.1).getD 0) low high ≠ none) →
      extract_bus low high row bm acc = .ok (some (acc ||| busSpec low high row bm)) := by
  intro bm
  induction bm with
  | nil => intro acc _ _; simp [extract_bus, busSpec]
  | cons cb rest ih =>
    intro acc hin hk
    obtain ⟨col, bit⟩ := cb
    have hcol : col < row.length := hin _ (List.mem_cons_self _ _)
    obtain ⟨q, hq⟩ : ∃ q, row.get? col = some q := ⟨_, List.get?_eq_get hcol⟩
    have hknown := hk _ (List.mem_cons_self _ _)
    simp only [hq, Option.getD_some] at hknown
    unfold extract_bus
    simp only [hq]
    cases hmv : map_value q low high with
    | none => exact absurd hmv hknown
    | some digital =>
      dsimp only
      rw [ih _ (fun c hc => hin c (List.mem_cons_of_mem _ hc))
        (fun c hc => hk c (List.mem_cons_of_mem _ hc))]
      simp only [busSpec, List.foldr_cons, hq, Option.getD_some, hmv]
      cases digital with
      | true =>
        simp only [if_true]
        congr 2
        rw [Nat.or_assoc, Nat.or_comm (1 <<< bit)]
      | false =>
        simp [Nat.zero_shiftLeft]

theorem extract_bus_unknown (low high : ℚ) (row : List ℚ) :
    ∀ (bm : BitMap) (acc : ℕ),
      (∀ cb ∈ bm, cb.1 < row.length) →
      (∃ cb ∈ bm, map_value ((row.get? cb.1).getD 0) low high = none) →
      extract_bus low high row bm acc = .ok none := by
  intro bm
  induction bm with
  | nil => intro acc _ hex; simp at hex
  | cons cb rest ih =>
    intro acc hin hex
    obtain ⟨col, bit⟩ := cb
    have hcol : col < row.length := hin _ (List.mem_cons_self _ _)
    obtain ⟨q, hq⟩ : ∃ q, row.get? col = some q := ⟨_, List.get?_eq_get hcol⟩
    unfold extract_bus
    simp only [hq]
    cases hmv : map_value q low high with
    | none => rfl
    | some digital =>
      apply ih _ (fun c hc => hin c (List.mem_cons_of_mem _ hc))
      obtain ⟨c, hc, hcnone⟩ := hex
      rcases List.mem_cons.mp hc with hhead | htail
      · subst hhead
        simp only [hq, Option.getD_some] at hcnone
        exact absurd hcnone (by simp [hmv])
      · exact ⟨c, htail, hcnone⟩

/-- C4: for every row and every bus bitmap whose column indices are in
range, if any contributing column classifies as Unknown the bus decodes to
Unknown regardless of the other bits; otherwise it decodes to the bitwise
OR, over the bitmap's `(column_index, bit_position)` entries, of
`1 <<< bit_position` for each bit classified One and `0` for each bit
classified Zero. -/
theorem c4_decode_unknown_or_pack (low high : ℚ) (row : List ℚ) (bm : BitMap)
    (hin : ∀ cb ∈ bm, cb.1 < row.length) :
    ((∃ cb ∈ bm, map_value ((row.get? cb.1).getD 0) low high = none) →
      extract_bus low high row bm 0 = .ok none) ∧
    ((∀ cb ∈ bm, map_value ((row.get? cb.1).getD 0) low high ≠ none) →
      extract_bus low high row bm 0 = .ok (some (busSpec low high row bm))) := by
  constructor
  · intro hex
    exact extract_bus_unknown low high row bm 0 hin hex
  · intro hk
    have h := extract_bus_all_known low high row bm 0 hin hk
    simpa [Nat.zero_or] using h

/-- C4 witness: a one-bit bus over the sample 1.8 with thresholds
`(0.2, 1.5)` decodes to the packed value. -/
theorem c4_decode_unknown_or_pack_witness :
    extract_bus 0.2 1.5 [1.8] [(0, 0)] 0
      = .ok (some (busSpec 0.2 1.5 [1.8] [(0, 0)])) :=
  (c4_decode_unknown_or_pack 0.2 1.5 [1.8] [(0, 0)] (by simp)).2
    (by
      intro cb hcb
      simp only [List.mem_singleton] at hcb
      subst hcb
      norm_num [map_value]
      try decide)

theorem foldl_max_init_le : ∀ (l : List (ℕ × ℕ)) (b : ℕ),
    b ≤ l.foldl (fun a cb => max a cb.2) b := by
  intro l
  induction l with
  | nil => intro b; exact le_refl b
  | cons cb rest ih =>
    intro b
    exact le_trans (Nat.le_max_left b cb.2) (ih (max b cb.2))

theorem mem_le_foldl_max : ∀ (l : List (ℕ × ℕ)) (b : ℕ),
    ∀ cb ∈ l, cb.2 ≤ l.foldl (fun a cb => max a cb.2) b := by
  intro l
  induction l with
  | nil => intro b cb hcb; simp at hcb
  | cons hd rest ih =>
    intro b cb hcb
    rcases List.mem_cons.mp hcb with hh | ht
    · subst hh
      exact le_trans (Nat.le_max_right b cb.2) (foldl_max_init_le rest _)
    · exact ih _ cb ht

theorem extract_bus_lt (low high : ℚ) (row : List ℚ) (B : ℕ) :
    ∀ (bm : BitMap) (acc v : ℕ),
      (∀ cb ∈ bm, cb.2 ≤ B) → acc < 2 ^ (B + 1) →
      extract_bus low high row bm acc = .ok (some v) → v < 2 ^ (B + 1) := by
  intro bm
  induction bm with
  | nil =>
    intro acc v _ hacc hv
    simp only [extract_bus, Except.ok.injEq, Option.some.injEq] at hv
    omega
  | cons cb rest ih =>
    intro acc v hB hacc hv
    obtain ⟨col, bit⟩ := cb
    unfold extract_bus at hv
    cases hget : row.get? col with
    | none => simp only [hget] at hv; exact absurd hv (by simp)
    | some analog =>
      simp only [hget] at hv
      cases hmv : map_value analog low high with
      | none => simp only [hmv] at hv; exact absurd hv (by simp)
      | some digital =>
        simp only [hmv] at hv
        refine ih _ _ (fun c hc => hB c (List.mem_cons_of_mem _ hc)) ?_ hv
        have hbit : bit ≤ B := hB _ (List.mem_cons_self _ _)
        have hshift : (if digital then 1 else 0) <<< bit < 2 ^ (B + 1) := by
          rw [Nat.shiftLeft_eq]
          have h1 : (if digital then 1 else 0) * 2 ^ bit ≤ 2 ^ bit := by
            cases digital <;> simp
          have h2 : (2 : ℕ) ^ bit < 2 ^ (B + 1) :=
            Nat.pow_lt_pow_right (by norm_num) (by omega)
          omega
        exact Nat.or_lt_two_pow hacc hshift

/-- C10: whenever a bus decodes to a resolved (non-Unknown) value, that
value is strictly below `2 ^ (maximum bit position + 1)`, the bit-width
the code uses for zero-padded hexadecimal and binary formatting. -/
theorem c10_value_fits_width (low high : ℚ) (row : List ℚ) (bm : BitMap) (mb v : ℕ)
    (hmb : maxBits bm = .ok mb)
    (hv : extract_bus low high row bm 0 = .ok (some v)) :
    v < 2 ^ (mb + 1) := by
  refine extract_bus_lt low high row mb bm 0 v ?_ (pow_pos (by norm_num) (mb + 1)) hv
  intro cb hcb
  cases bm with
  | nil => simp at hcb
  | cons hd rest =>
    simp only [maxBits, Except.ok.injEq] at hmb
    subst hmb
    rcases List.mem_cons.mp hcb with hh | ht
    · subst hh
      exact foldl_max_init_le rest cb.2
    · exact mem_le_foldl_max rest hd.2 cb ht

/-- C10 witness: the one-bit bus over sample 1.8 decodes to 1, which fits
in width `0 + 1`. -/
theorem c10_value_fits_width_witness : (1 : ℕ) < 2 ^ (0 + 1) :=
  c10_value_fits_width 0.2 1.5 [1.8] [(0, 0)] 0 1 rfl
    (by
      unfold extract_bus
      norm_num [map_value]
      rfl)

/-- C2 counterexample: with no header row, startup succeeds (the bus map
is built and `non_bus_cols` is simply never assigned), and the run only
fails — with an unhandled NameError, not a configuration message — once
the first non-blank row is processed, refuting "fatal at startup, before
any row is processed". -/
theorem c2_counterexample :
    setup false ["x"] 1 none = (default_lsb_first 1, none) ∧
    processRecord 0.2 1.5 .dec (default_lsb_first 1) none ⟨INITIAL_DELAY, 0⟩ [some 0]
      = .error .nameError :=
  ⟨rfl, rfl⟩

/-- C2 (amended): when clocked resampling has no time column to read, the
run does not fail at startup: headerless setup always completes (leaving
`non_bus_cols` unassigned), and the run instead aborts while processing
the first non-blank record — with a NameError when there was no header,
or a KeyError when the header lacked a `time` column. -/
theorem c2_no_time_amended (low high : ℚ) (fmt : Fmt) (busses : Busses)
    (st : RunState) (record : List (Option ℚ)) (hne : record.filterMap id ≠ []) :
    (∀ (header : List String) (num_cols : ℕ) (ord : Option Bitorder),
      (setup false header num_cols ord).2 = none) ∧
    processRecord low high fmt busses none st record = .error .nameError ∧
    (∀ nbc : List (String × ℕ), nbc.lookup "time" = none →
      processRecord low high fmt busses (some nbc) st record = .error .keyError) := by
  have hb' : (record.filterMap id).isEmpty = false := by
    simpa [List.isEmpty_iff] using hne
  refine ⟨?_, ?_, ?_⟩
  · intro header num_cols ord
    cases ord with
    | none => rfl
    | some o => cases o <;> rfl
  · simp only [processRecord, hb', Bool.false_eq_true, if_false]
  · intro nbc hlk
    simp only [processRecord, hb', Bool.false_eq_true, if_false, hlk]

/-- C2 witness: a headerless run with one populated record aborts with a
NameError at that record. -/
theorem c2_no_time_amended_witness :
    processRecord 0.2 1.5 .dec (default_lsb_first 1) none ⟨INITIAL_DELAY, 0⟩ [some 0]
      = .error .nameError :=
  (c2_no_time_amended 0.2 1.5 .dec (default_lsb_first 1) ⟨INITIAL_DELAY, 0⟩ [some 0]
    (by simp)).2.1

/-- C7 counterexample: with header `["time","v(data0)","v(data1)"]` and
thresholds `(0.2, 1.5)`, the row `[0.0, 1.8, 0.1]` decodes bus `data` to
1 (bit 0 gets One from sample 1.8, bit 1 gets Zero from sample 0.1), not
to the claimed decimal value 2. -/
theorem c7_counterexample :
    extract_vals 0.2 1.5 (infer ["time", "v(data0)", "v(data1)"]) [0, 1.8, 0.1]
      = .ok [("data", some 1)] ∧
    (Except.ok [("data", some (1 : ℕ))] : Except Err (List (String × Option ℕ)))
      ≠ .ok [("data", some 2)] := by
  constructor
  · have hinf : infer ["time", "v(data0)", "v(data1)"] = [("data", [(1, 0), (2, 1)])] := by
      decide
    rw [hinf]
    norm_num [extract_vals, extract_bus, map_value]
  · simp

/-- C7 (amended): with header `["time","v(data0)","v(data1)"]` and
thresholds `(0.2, 1.5)`, the row `[0.0, 1.8, 0.1]` yields bus `data` =
binary `01`, i.e. decimal value 1 (bit 0 contributes 1, bit 1 contributes
0). -/
theorem c7_scenario_a_amended :
    extract_vals 0.2 1.5 (infer ["time", "v(data0)", "v(data1)"]) [0, 1.8, 0.1]
      = .ok [("data", some 1)] ∧
    format_val (some 1) .bin 2 = .ok "0b01" ∧
    format_val (some 1) .dec 2 = .ok "1" := by
  refine ⟨?_, rfl, rfl⟩
  have hinf : infer ["time", "v(data0)", "v(data1)"] = [("data", [(1, 0), (2, 1)])] := by
    decide
  rw [hinf]
  norm_num [extract_vals, extract_bus, map_value]

/-- C9 counterexample: against a 4-column bus map, a record with only its
first two fields populated (fewer than expected) is not treated as blank:
it is processed against the compacted field list and aborts the run with
an IndexError instead of being skipped. -/
theorem c9_counterexample :
    processRecord 0.2 1.5 .dec [("m", [(1, 0)]), ("n", [(2, 0)]), ("p", [(3, 0)])]
      (some [("time", 0)]) ⟨INITIAL_DELAY, 0⟩ [some 1, some 2, none, none]
      = .error .indexError := by
  have hrcd : (List.filterMap id [some (1 : ℚ), some 2, none, none]) = [1, 2] := by simp
  simp only [processRecord, hrcd]
  norm_num [readNonBus, extract_vals, extract_bus, map_value, List.lookup, INITIAL_DELAY]

/-- C9 (amended): a record is treated as blank and silently skipped — no
decoding, no clock advance, no abort — exactly when every one of its
fields is empty; a record with some but fewer populated fields than
expected is not skipped (it is processed against the compacted field list
and may abort the run). -/
theorem c9_blank_skip_amended (low high : ℚ) (fmt : Fmt) (busses : Busses)
    (nbcOpt : Option (List (String × ℕ))) (st st' : RunState)
    (record : List (Option ℚ)) :
    processRecord low high fmt busses nbcOpt st record = .ok (st', .skipped) ↔
      record.filterMap id = [] ∧ st' = st := by
  by_cases hb : record.filterMap id = []
  · simp only [processRecord, hb, List.isEmpty_nil, if_true, hb, true_and]
    constructor
    · intro h
      injection h with h1
      exact ((Prod.mk.injEq _ _ _ _).mp h1).1.symm
    · intro h
      rw [h]
  · have hb' : (record.filterMap id).isEmpty = false := by
      simpa [List.isEmpty_iff] using hb
    simp only [processRecord, hb', Bool.false_eq_true, if_false, hb, false_and, iff_false]
    cases nbcOpt with
    | none => simp
    | some nbc =>
      cases hlk : nbc.lookup "time" with
      | none => simp [hlk]
      | some tcol =>
        simp only [hlk]
        cases hg : (record.filterMap id).get? tcol with
        | none => simp [hg]
        | some t =>
          simp only [hg]
          by_cases ht : t < st.next_sample_time
          · simp [ht]
          · simp only [if_neg ht]
            cases hr : readNonBus nbc (record.filterMap id) with
            | error e => simp [hr]
            | ok nb =>
              simp only [hr]
              cases he : extract_vals low high busses (record.filterMap id) with
              | error e => simp [he]
              | ok bus_vals =>
                simp only [he]
                cases hf : formatAll busses fmt bus_vals with
                | error e => simp [hf]
                | ok ss =>
                  simp only [hf]
                  cases hv : verify_step bus_vals st.num_correct with
                  | error e => simp [hv]
                  | ok ncann => simp [hv]

/-- C9 witness: a record whose fields are all empty is skipped with the
state unchanged. -/
theorem c9_blank_skip_amended_witness :
    processRecord 0.2 1.5 .dec [] none ⟨INITIAL_DELAY, 0⟩ [none, none]
      = .ok (⟨INITIAL_DELAY, 0⟩, .skipped) :=
  (c9_blank_skip_amended 0.2 1.5 .dec [] none ⟨INITIAL_DELAY, 0⟩ ⟨INITIAL_DELAY, 0⟩
    [none, none]).mpr ⟨by simp, rfl⟩


theorem clockAdmitCount_nil (next : ℚ) : clockAdmitCount [] next = 0 := rfl

theorem clockAdmitCount_cons (t : ℚ) (ts : List ℚ) (next : ℚ) :
    clockAdmitCount (t :: ts) next
      = if t < next then clockAdmitCount ts next
        else clockAdmitCount ts (next + CLOCK_PERIOD) + 1 := rfl

theorem clockAdmitCount_zero (ts : List ℚ) (c : ℚ) (h : ∀ t ∈ ts, t < c) :
    clockAdmitCount ts c = 0 := by
  induction ts with
  | nil => rfl
  | cons t ts ih =>
    rw [clockAdmitCount_cons, if_pos (h t (List.mem_cons_self _ _))]
    exact ih (fun t' ht' => h t' (List.mem_cons_of_mem _ ht'))

theorem floor_div_period_eq_zero (X : ℚ) (h0 : 0 ≤ X) (h1 : X < CLOCK_PERIOD) :
    ⌊X / CLOCK_PERIOD⌋ = 0 := by
  rw [Int.floor_eq_zero_iff, Set.mem_Ico]
  exact ⟨div_nonneg h0 CLOCK_PERIOD_pos.le, (div_lt_one CLOCK_PERIOD_pos).mpr h1⟩

theorem clockAdmitCount_dense (δ : ℚ) (hδ : 0 < δ) (hδP : δ ≤ CLOCK_PERIOD) :
    ∀ (m a : ℕ) (c : ℚ), ((a : ℚ) - 1) * δ < c → c ≤ ((a : ℚ) + (m : ℚ)) * δ →
      (clockAdmitCount ((List.range' a (m + 1)).map (fun i : ℕ => (i : ℚ) * δ)) c : ℤ)
        = ⌊(((a : ℚ) + (m : ℚ)) * δ - c) / CLOCK_PERIOD⌋ + 1 := by
  have hP : (0 : ℚ) < CLOCK_PERIOD := CLOCK_PERIOD_pos
  intro m
  induction m with
  | zero =>
    intro a c h1 h2
    have h1' : (a : ℚ) * δ - δ < c := by nlinarith [h1]
    have h2' : c ≤ (a : ℚ) * δ := by
      have e : ((a : ℚ) + ((0 : ℕ) : ℚ)) * δ = (a : ℚ) * δ := by push_cast; ring
      linarith [e ▸ h2]
    rw [List.range'_one, List.map_cons, List.map_nil, clockAdmitCount_cons,
      if_neg (not_lt.mpr h2'), clockAdmitCount_nil]
    have hfl : ⌊(((a : ℚ) + ((0 : ℕ) : ℚ)) * δ - c) / CLOCK_PERIOD⌋ = 0 := by
      apply floor_div_period_eq_zero
      · push_cast
        linarith
      · push_cast
        linarith
    rw [hfl]
    norm_num
  | succ k ih =>
    intro a c h1 h2
    have h1' : (a : ℚ) * δ - δ < c := by nlinarith [h1]
    have ecast : (((a + 1 : ℕ)) : ℚ) + (k : ℚ) = (a : ℚ) + ((k + 1 : ℕ) : ℚ) := by
      push_cast; ring
    have ecast1 : (((a + 1 : ℕ)) : ℚ) - 1 = (a : ℚ) := by push_cast; ring
    rw [List.range'_succ, List.map_cons, clockAdmitCount_cons]
    by_cases hd : (a : ℚ) * δ < c
    · rw [if_pos hd]
      have hih := ih (a + 1) c (by rw [ecast1]; exact hd) (by rw [ecast]; exact h2)
      rw [ecast] at hih
      exact hih
    · rw [if_neg hd]
      push_neg at hd
      by_cases hnext : c + CLOCK_PERIOD ≤ ((a : ℚ) + ((k + 1 : ℕ) : ℚ)) * δ
      · have hih := ih (a + 1) (c + CLOCK_PERIOD)
          (by rw [ecast1]; linarith)
          (by rw [ecast]; exact hnext)
        rw [ecast] at hih
        rw [Nat.cast_add, Nat.cast_one, hih]
        have hargs : ((a : ℚ) + ((k + 1 : ℕ) : ℚ)) * δ - (c + CLOCK_PERIOD)
            = (((a : ℚ) + ((k + 1 : ℕ) : ℚ)) * δ - c) - CLOCK_PERIOD := by ring
        rw [hargs, show ((((a : ℚ) + ((k + 1 : ℕ) : ℚ)) * δ - c) - CLOCK_PERIOD) / CLOCK_PERIOD
            = (((a : ℚ) + ((k + 1 : ℕ) : ℚ)) * δ - c) / CLOCK_PERIOD - 1 by
          rw [sub_div, div_self hP.ne']]
        rw [Int.floor_sub_one]
        ring
      · push_neg at hnext
        have hall : ∀ t ∈ (List.range' (a + 1) (k + 1)).map (fun i : ℕ => (i : ℚ) * δ),
            t < c + CLOCK_PERIOD := by
          intro t ht
          obtain ⟨i, hi, rfl⟩ := List.mem_map.mp ht
          obtain ⟨hi1, hi2⟩ := List.mem_range'_1.mp hi
          have hle : (i : ℚ) ≤ (a : ℚ) + ((k + 1 : ℕ) : ℚ) := by
            have hn : i ≤ a + (k + 1) := by omega
            push_cast
            exact_mod_cast hn
          calc (i : ℚ) * δ ≤ ((a : ℚ) + ((k + 1 : ℕ) : ℚ)) * δ :=
                mul_le_mul_of_nonneg_right hle hδ.le
            _ < c + CLOCK_PERIOD := hnext
        rw [clockAdmitCount_zero _ _ hall]
        have haz : (a : ℚ) * δ ≤ ((a : ℚ) + ((k + 1 : ℕ) : ℚ)) * δ := by
          have : (0 : ℚ) ≤ ((k + 1 : ℕ) : ℚ) := by positivity
          nlinarith
        have hfl : ⌊(((a : ℚ) + ((k + 1 : ℕ) : ℚ)) * δ - c) / CLOCK_PERIOD⌋ = 0 := by
          apply floor_div_period_eq_zero
          · linarith
          · linarith
        rw [hfl]
        norm_num

/-- C6: for a trace whose time column is dense and regularly spaced,
`t_i = i * δ` for `i = 0..N` (so it spans `[0, T_max]` with
`T_max = N * δ` and no gap exceeding one period, `δ ≤ CLOCK_PERIOD`), and
whose span reaches the initial delay, the clock resampler admits exactly
`floor((T_max - INITIAL_DELAY) / CLOCK_PERIOD) + 1` rows. -/
theorem c6_admission_count (N : ℕ) (δ : ℚ) (h0 : 0 < δ) (hgap : δ ≤ CLOCK_PERIOD)
    (hspan : INITIAL_DELAY ≤ (N : ℚ) * δ) :
    (clockAdmitCount ((List.range (N + 1)).map (fun i : ℕ => (i : ℚ) * δ)) INITIAL_DELAY : ℤ)
      = ⌊((N : ℚ) * δ - INITIAL_DELAY) / CLOCK_PERIOD⌋ + 1 := by
  have ez : ((0 : ℕ) : ℚ) + (N : ℚ) = (N : ℚ) := by push_cast; ring
  have h := clockAdmitCount_dense δ h0 hgap N 0 INITIAL_DELAY
    (by
      have e : (((0 : ℕ) : ℚ) - 1) * δ = -δ := by push_cast; ring
      rw [e]
      linarith [INITIAL_DELAY_nonneg])
    (by rw [ez]; exact hspan)
  rw [ez] at h
  rw [List.range_eq_range']
  exact h


/-- C6 witness: three rows at exactly one period apart admit
`floor((2 * CLOCK_PERIOD - INITIAL_DELAY) / CLOCK_PERIOD) + 1 = 2` rows. -/
theorem c6_admission_count_witness :
    (clockAdmitCount ((List.range (2 + 1)).map (fun i : ℕ => (i : ℚ) * CLOCK_PERIOD))
        INITIAL_DELAY : ℤ)
      = ⌊(((2 : ℕ) : ℚ) * CLOCK_PERIOD - INITIAL_DELAY) / CLOCK_PERIOD⌋ + 1 :=
  c6_admission_count 2 CLOCK_PERIOD CLOCK_PERIOD_pos (le_refl _)
    (by norm_num [INITIAL_DELAY, CLOCK_PERIOD])


end Csvadc
